import Mathlib

/-!
Shallow embedding of the core of the randomuser-api-test-automation
repository: the command invoker with undo/redo history
(src/commands/TestCommand.ts), the macro command, the observer
notification registry and the metrics observer
(src/observers/TestObserver.ts, shipped inside ConfigManager.ts here),
the composite validation strategy (src/strategies/ValidationStrategy.ts),
and a model of the resilient API client's retry/backoff and parameter
validation (its source file is absent from the snapshot; modelled from
the specification).

JavaScript numbers that only ever hold integer millisecond counts are
modelled as `Int`; the one float quantity (the metrics observer's
average duration) is modelled as `Rat`.
-/

set_option autoImplicit false

universe u v

/-- Test outcome status, the `'passed' | 'failed' | 'skipped'` union of
TestObserver.ts. -/
inductive TestStatus where
  | passed
  | failed
  | skipped
deriving Repr, DecidableEq

/-- The TestResult record of TestObserver.ts: name, status, duration in
milliseconds, optional error message, completion timestamp (a Date,
modelled as an integer epoch-millisecond value). -/
structure TestResult where
  testName : String
  status : TestStatus
  duration : Int
  error : Option String := none
  timestamp : Int
deriving Repr, DecidableEq

/-- The TestSuite aggregate of TestObserver.ts. -/
structure TestSuite where
  suiteName : String
  results : List TestResult
  totalTests : Int
  passedTests : Int
  failedTests : Int
  skippedTests : Int
  totalDuration : Int
deriving Repr, DecidableEq

/-- JavaScript `array.slice(0, e)`: a negative end counts from the end of
the array, and both directions clamp to the available range. -/
def jsSliceTo {α : Type u} (l : List α) (e : Int) : List α :=
  if e < 0 then l.take ((l.length : Int) + e).toNat else l.take e.toNat

/-- JavaScript `array[i]` as an option: out-of-range indexing yields
`undefined`, modelled as `none`. -/
def jsGet {α : Type u} (l : List α) (i : Int) : Option α :=
  if i < 0 then none else l.get? i.toNat

/-- State of a TestCommandInvoker (TestCommand.ts): the command history
and the cursor `currentIndex`. Commands are abstract values of type `α`
(identity is by reference in the source); the result a command's
`execute()` produces is supplied by an `exec` function where needed. -/
structure TestCommandInvoker (α : Type u) where
  history : List α
  currentIndex : Int
deriving Repr, DecidableEq

namespace TestCommandInvoker

/-- A fresh invoker: empty history, cursor −1. -/
def init {α : Type u} : TestCommandInvoker α := ⟨[], -1⟩

/-- Method `executeCommand`: truncate the history after the cursor
(`slice(0, currentIndex + 1)`), push the command, advance the cursor,
and run the command, returning its TestResult. -/
def executeCommand {α : Type u} (exec : α → TestResult)
    (s : TestCommandInvoker α) (cmd : α) : TestCommandInvoker α × TestResult :=
  (⟨jsSliceTo s.history (s.currentIndex + 1) ++ [cmd], s.currentIndex + 1⟩,
    exec cmd)

/-- Method `undoLastCommand`: if the cursor is ≥ 0, run the current entry's undo
and decrement the cursor; otherwise do nothing. The second component is
the command whose `undo()` was invoked, if any. -/
def undoLastCommand {α : Type u} (s : TestCommandInvoker α) :
    TestCommandInvoker α × Option α :=
  if s.currentIndex ≥ 0 then
    ({ s with currentIndex := s.currentIndex - 1 }, jsGet s.history s.currentIndex)
  else
    (s, none)

/-- Method `redoCommand`: if the cursor is before the newest entry, advance it
and re-execute that entry, returning its new TestResult; otherwise
return null (`none`) and leave the state unchanged. -/
def redoCommand {α : Type u} (exec : α → TestResult)
    (s : TestCommandInvoker α) : TestCommandInvoker α × Option TestResult :=
  if s.currentIndex < (s.history.length : Int) - 1 then
    ({ s with currentIndex := s.currentIndex + 1 },
      (jsGet s.history (s.currentIndex + 1)).map exec)
  else
    (s, none)

/-- Method `getHistory`: a copy of the recorded command list. -/
def getHistory {α : Type u} (s : TestCommandInvoker α) : List α :=
  s.history

/-- Method `clearHistory`: empty the history and reset the cursor to −1. -/
def clearHistory {α : Type u} (_s : TestCommandInvoker α) : TestCommandInvoker α :=
  ⟨[], -1⟩

/-- Method `canUndo`: the cursor points at some entry. -/
def canUndo {α : Type u} (s : TestCommandInvoker α) : Bool :=
  s.currentIndex ≥ 0

/-- Method `canRedo`: the cursor is strictly before the newest entry. -/
def canRedo {α : Type u} (s : TestCommandInvoker α) : Bool :=
  s.currentIndex < (s.history.length : Int) - 1

/-- One operation of the invoker's public mutating interface. -/
inductive Op (α : Type u) where
  | exec (cmd : α)
  | undo
  | redo
  | clear
deriving Repr, DecidableEq

/-- Apply one operation to the invoker state (discarding the returned
TestResult, which does not influence the state). -/
def step {α : Type u} (exec : α → TestResult)
    (s : TestCommandInvoker α) : Op α → TestCommandInvoker α
  | .exec cmd => (executeCommand exec s cmd).1
  | .undo => (undoLastCommand s).1
  | .redo => (redoCommand exec s).1
  | .clear => clearHistory s

/-- The state reached from a fresh invoker by a sequence of operations. -/
def run {α : Type u} (exec : α → TestResult) (ops : List (Op α)) :
    TestCommandInvoker α :=
  ops.foldl (step exec) init

/-- The cursor invariant: `-1 ≤ currentIndex < history.length`, and the
cursor is exactly −1 whenever the history is empty. -/
def Inv {α : Type u} (s : TestCommandInvoker α) : Prop :=
  -1 ≤ s.currentIndex ∧ s.currentIndex < (s.history.length : Int) ∧
    (s.history = [] → s.currentIndex = -1)

instance {α : Type u} [DecidableEq α] (s : TestCommandInvoker α) :
    Decidable (Inv s) := by
  unfold Inv; infer_instance

end TestCommandInvoker

/-- A sub-command of a MacroTestCommand, abstracted by its name and the
TestResult its `execute()` produces (the source's sub-commands are
arbitrary TestCommand objects; their execution outcome is all the macro
inspects). -/
structure SubCmd where
  name : String
  res : TestResult
deriving Repr, DecidableEq

namespace MacroTestCommand

/-- JavaScript template-literal rendering of `result.error`, which prints
the string `undefined` when the field is absent. -/
def showError : Option String → String
  | some e => e
  | none => "undefined"

/-- The body of MacroTestCommand.execute: run sub-commands in order,
collecting the trace of executed sub-commands; at the first sub-result
with status failed, return a failed TestResult naming that sub-command
and its error, executing nothing further. `t0` is the `Date.now()` read
at entry, `tf` the read at return. -/
def execLoop (mname : String) (t0 tf : Int) :
    List SubCmd → List SubCmd × TestResult
  | [] =>
    ([], { testName := mname, status := .passed, duration := tf - t0,
           error := none, timestamp := tf })
  | c :: rest =>
    if c.res.status = .failed then
      ([c], { testName := mname, status := .failed, duration := tf - t0,
              error := some s!"Command {c.name} failed: {showError c.res.error}",
              timestamp := tf })
    else
      let (tr, r) := execLoop mname t0 tf rest
      (c :: tr, r)

/-- The body of MacroTestCommand.undo: `for i = length−1 downto 0:
commands[i].undo()`. The value is the ordered trace of sub-commands whose
undo is invoked; the argument is the loop counter `i + 1`. -/
def undoLoop (cmds : List SubCmd) : Nat → List SubCmd
  | 0 => []
  | i + 1 => (jsGet cmds (i : Int)).toList ++ undoLoop cmds i

/-- MacroTestCommand.undo's full invocation trace. -/
def undoRun (cmds : List SubCmd) : List SubCmd :=
  undoLoop cmds cmds.length

end MacroTestCommand

/-- State of a TestResultNotifier (TestObserver.ts): the ordered list of
subscribed observers, abstract values of type `β`. -/
structure TestResultNotifier (β : Type u) where
  observers : List β
deriving Repr, DecidableEq

namespace TestResultNotifier

/-- A fresh notifier with no observers. -/
def init {β : Type u} : TestResultNotifier β := ⟨[]⟩

/-- Method `addObserver`: push onto the observer list. -/
def addObserver {β : Type u} (s : TestResultNotifier β) (o : β) :
    TestResultNotifier β :=
  ⟨s.observers ++ [o]⟩

/-- JavaScript `indexOf` followed by `splice(index, 1)`: remove the first occurrence
of the observer, if present. -/
def removeFirst {β : Type u} [DecidableEq β] : List β → β → List β
  | [], _ => []
  | x :: xs, o => if x = o then xs else x :: removeFirst xs o

/-- Method `removeObserver`: drop the observer's first occurrence. -/
def removeObserver {β : Type u} [DecidableEq β]
    (s : TestResultNotifier β) (o : β) : TestResultNotifier β :=
  ⟨removeFirst s.observers o⟩

/-- JavaScript `observers.forEach(observer => observer.handler(ev))`: the ordered
trace of (observer, event) handler invocations the fan-out performs. -/
def fanout {β : Type u} {ε : Type v} : List β → ε → List (β × ε)
  | [], _ => []
  | o :: rest, ev => (o, ev) :: fanout rest ev

/-- Method `notifyTestStart`: deliver the test name to every observer in order. -/
def notifyTestStart {β : Type u} (s : TestResultNotifier β)
    (testName : String) : List (β × String) :=
  fanout s.observers testName

/-- Method `notifyTestComplete`: deliver the TestResult to every observer in
order. -/
def notifyTestComplete {β : Type u} (s : TestResultNotifier β)
    (result : TestResult) : List (β × TestResult) :=
  fanout s.observers result

/-- Method `notifySuiteComplete`: deliver the TestSuite to every observer in
order. -/
def notifySuiteComplete {β : Type u} (s : TestResultNotifier β)
    (suite : TestSuite) : List (β × TestSuite) :=
  fanout s.observers suite

end TestResultNotifier

/-- The ValidationResult record of ValidationStrategy.ts. -/
structure ValidationResult where
  isValid : Bool
  errors : List String
  field : Option String := none
deriving Repr, DecidableEq

namespace CompositeValidationStrategy

/-- CompositeValidationStrategy.validate: run every sub-strategy on the
datum (the `for..of` loop over all strategies, with no break), conjoin
validity, and accumulate the errors of the invalid sub-results in order.
A sub-strategy is its `validate` function `γ → ValidationResult`. -/
def validate {γ : Type u} (strategies : List (γ → ValidationResult))
    (data : γ) : ValidationResult :=
  let acc := strategies.foldl
    (fun (acc : Bool × List String) s =>
      let result := s data
      if result.isValid then acc else (false, acc.2 ++ result.errors))
    (true, [])
  { isValid := acc.1, errors := acc.2, field := some "composite" }

end CompositeValidationStrategy

/-- A `{ name, duration }` record of the metrics observer; the duration is
a JavaScript number that may be `Infinity` (the fastest-test sentinel),
modelled as `WithTop Int`. -/
structure NamedDuration where
  name : String
  duration : WithTop Int
deriving DecidableEq

/-- The internal metrics record of MetricsTestObserver. The average is a
float quotient in the source, modelled as an exact rational. -/
structure Metrics where
  totalTests : Nat
  passedTests : Nat
  failedTests : Nat
  skippedTests : Nat
  totalDuration : Int
  averageDuration : Rat
  slowestTest : NamedDuration
  fastestTest : NamedDuration
deriving DecidableEq

namespace MetricsTestObserver

/-- The observer's initial metrics: all counters 0, slowest sentinel
`{ name: '', duration: 0 }`, fastest sentinel
`{ name: '', duration: Infinity }`. -/
def initMetrics : Metrics where
  totalTests := 0
  passedTests := 0
  failedTests := 0
  skippedTests := 0
  totalDuration := 0
  averageDuration := 0
  slowestTest := ⟨"", ((0 : Int) : WithTop Int)⟩
  fastestTest := ⟨"", ⊤⟩

/-- MetricsTestObserver.onTestComplete: bump the total and the bucket of
the result's status, accumulate the duration, update the slowest/fastest
records on strict comparison, and recompute the average as
`totalDuration / totalTests`. -/
def onTestComplete (m : Metrics) (r : TestResult) : Metrics :=
  let m := { m with totalTests := m.totalTests + 1,
                    totalDuration := m.totalDuration + r.duration }
  let m :=
    match r.status with
    | .passed => { m with passedTests := m.passedTests + 1 }
    | .failed => { m with failedTests := m.failedTests + 1 }
    | .skipped => { m with skippedTests := m.skippedTests + 1 }
  let m := if (r.duration : WithTop Int) > m.slowestTest.duration then
      { m with slowestTest := ⟨r.testName, (r.duration : WithTop Int)⟩ }
    else m
  let m := if (r.duration : WithTop Int) < m.fastestTest.duration then
      { m with fastestTest := ⟨r.testName, (r.duration : WithTop Int)⟩ }
    else m
  { m with averageDuration := (m.totalDuration : Rat) / (m.totalTests : Rat) }

/-- The metrics after a whole sequence of completions, oldest first. -/
def observeAll (rs : List TestResult) : Metrics :=
  rs.foldl onTestComplete initMetrics

end MetricsTestObserver

/-- Modelled from the spec: the outcome of one network attempt of the
resilient RandomUserApiClient (whose source file,
src/api/randomuser.client.ts, is absent from the snapshot): a success, a
network-level failure with no response, an HTTP error status, or some
other transport/configuration error. -/
inductive AttemptOutcome where
  | success
  | networkFailure
  | httpStatus (code : Nat)
  | otherError
deriving Repr, DecidableEq

/-- Modelled from the spec: failure classification — network-level
failures are Retryable; HTTP 429 and statuses ≥ 500 are Retryable;
statuses in [400,500) other than 429, and any other error, are
NonRetryable. -/
def retryable : AttemptOutcome → Bool
  | .networkFailure => true
  | .httpStatus code => code == 429 || code ≥ 500
  | _ => false

/-- Outcome of a whole retrying request: whether it succeeded, the list of
backoff waits performed (in milliseconds, in order), and how many network
attempts were issued. -/
structure RetryRun where
  succeeded : Bool
  waits : List Nat
  networkCalls : Nat
deriving Repr, DecidableEq

/-- Modelled from the spec: the retry loop from attempt number `attempt`,
with enough fuel for the remaining attempts. On success return
immediately; on a NonRetryable failure, or when `attempt ≥ maxAttempts`,
fail immediately; otherwise wait `baseDelay × 2 ^ (attempt − 1)`
milliseconds and try again. -/
def retryFrom (outcome : Nat → AttemptOutcome) (maxAttempts baseDelay : Nat) :
    Nat → Nat → RetryRun
  | _, 0 => ⟨false, [], 0⟩
  | attempt, fuel + 1 =>
    match outcome attempt with
    | .success => ⟨true, [], 1⟩
    | f =>
      if retryable f ∧ attempt < maxAttempts then
        let rest := retryFrom outcome maxAttempts baseDelay (attempt + 1) fuel
        ⟨rest.succeeded, baseDelay * 2 ^ (attempt - 1) :: rest.waits,
          rest.networkCalls + 1⟩
      else ⟨false, [], 1⟩

/-- Modelled from the spec: one whole retrying request, starting at
attempt 1. At least one attempt is always issued. -/
def runRetry (outcome : Nat → AttemptOutcome) (maxAttempts baseDelay : Nat) :
    RetryRun :=
  retryFrom outcome maxAttempts baseDelay 1 (max maxAttempts 1)

/-- Modelled from the spec: the error taxonomy a convenience fetch can
fail with — a synchronous ConfigError for an invalid caller-supplied
parameter, or a terminal post-retry request failure. -/
inductive ApiError where
  | configError (msg : String)
  | requestFailed
deriving Repr, DecidableEq

/-- Outcome of a bulk-fetch call: the result and how many network attempts
were issued. -/
structure FetchRun where
  result : Except ApiError Unit
  networkCalls : Nat
deriving Repr

/-- Modelled from the spec: getMultipleUsers(count) — validate that the
count lies in [1, 5000] before any network call, failing synchronously
with a ConfigError (the message asserted by the repository's tests)
without retrying; otherwise issue the single retrying request. -/
def getMultipleUsers (outcome : Nat → AttemptOutcome)
    (maxAttempts baseDelay : Nat) (count : Int) : FetchRun :=
  if count < 1 ∨ count > 5000 then
    ⟨.error (.configError "Count must be between 1 and 5000"), 0⟩
  else
    let r := runRetry outcome maxAttempts baseDelay
    ⟨if r.succeeded then .ok () else .error .requestFailed, r.networkCalls⟩

/-- A command-execution function for concrete runs: every command passes
instantly (the invoker's bookkeeping does not depend on results). -/
def dummyExec (n : String) : TestResult :=
  { testName := n, status := .passed, duration := 0, error := none, timestamp := 0 }

/-- The invoker state after execute(A), execute(B), undo(), execute(C)
from a fresh invoker. -/
def c1Run : TestCommandInvoker String :=
  let s1 := (TestCommandInvoker.executeCommand dummyExec TestCommandInvoker.init "A").1
  let s2 := (TestCommandInvoker.executeCommand dummyExec s1 "B").1
  let s3 := (TestCommandInvoker.undoLastCommand s2).1
  (TestCommandInvoker.executeCommand dummyExec s3 "C").1

/-- Claim C1, counterexample: after execute(A), execute(B), undo(),
execute(C) the history is ["A", "C"], of length 2 — not length 3 as the
claim states. -/
theorem claim_C1_counterexample :
    TestCommandInvoker.getHistory c1Run = ["A", "C"] ∧
    (TestCommandInvoker.getHistory c1Run).length ≠ 3 := by
  decide

/-- Claim C1, amended: after execute(A), execute(B), undo(), execute(C)
the history has length 2, the entry at index 1 is C (the B branch is
discarded), and canRedo() returns false. -/
theorem claim_C1 :
    (TestCommandInvoker.getHistory c1Run).length = 2 ∧
    jsGet (TestCommandInvoker.getHistory c1Run) 1 = some "C" ∧
    TestCommandInvoker.canRedo c1Run = false := by
  decide

/-- Claim C10: a MacroTestCommand over an empty sub-command list always
returns a passed TestResult with no error from execute, and its undo
invokes nothing. -/
theorem claim_C10 (mname : String) (t0 tf : Int) :
    (MacroTestCommand.execLoop mname t0 tf []).2.status = .passed ∧
    (MacroTestCommand.execLoop mname t0 tf []).2.error = none ∧
    MacroTestCommand.undoRun [] = [] :=
  ⟨rfl, rfl, rfl⟩

/-- Claim C7: on any invoker state satisfying the cursor invariant,
undoLastCommand at cursor −1 is a no-op (state unchanged, no undo
invoked); redoCommand at the newest entry returns null with state
unchanged; otherwise redoCommand advances the cursor and re-executes the
entry now under it, returning its new TestResult. -/
theorem claim_C7 {α : Type u} (exec : α → TestResult)
    (s : TestCommandInvoker α) (h : TestCommandInvoker.Inv s) :
    (s.currentIndex = -1 → TestCommandInvoker.undoLastCommand s = (s, none)) ∧
    (TestCommandInvoker.canRedo s = false →
      TestCommandInvoker.redoCommand exec s = (s, none)) ∧
    (TestCommandInvoker.canRedo s = true →
      ∃ cmd, jsGet s.history (s.currentIndex + 1) = some cmd ∧
        TestCommandInvoker.redoCommand exec s =
          ({ s with currentIndex := s.currentIndex + 1 }, some (exec cmd))) := by
  obtain ⟨h1, h2, _h3⟩ := h
  refine ⟨?_, ?_, ?_⟩
  · intro hc
    unfold TestCommandInvoker.undoLastCommand
    rw [if_neg (by omega)]
  · intro hc
    simp only [TestCommandInvoker.canRedo, decide_eq_false_iff_not, not_lt] at hc
    unfold TestCommandInvoker.redoCommand
    rw [if_neg (by omega)]
  · intro hc
    simp only [TestCommandInvoker.canRedo, decide_eq_true_eq] at hc
    have hnn : 0 ≤ s.currentIndex + 1 := by omega
    have hlt : (s.currentIndex + 1).toNat < s.history.length := by omega
    refine ⟨s.history.get ⟨(s.currentIndex + 1).toNat, hlt⟩, ?_, ?_⟩
    · unfold jsGet
      rw [if_neg (by omega), List.get?_eq_get hlt]
    · unfold TestCommandInvoker.redoCommand
      rw [if_pos (by omega)]
      unfold jsGet
      rw [if_neg (by omega), List.get?_eq_get hlt]
      rfl

/-- A concrete invoker state exercising claim C7: history [A, B] with the
cursor on A. -/
def c7State : TestCommandInvoker String := ⟨["A", "B"], 0⟩

/-- Claim C7, witness: the invariant holds on the concrete state
⟨[A, B], 0⟩ and the three-part conclusion follows there. -/
theorem claim_C7_witness :
    TestCommandInvoker.Inv c7State ∧
    ((c7State.currentIndex = -1 →
        TestCommandInvoker.undoLastCommand c7State = (c7State, none)) ∧
     (TestCommandInvoker.canRedo c7State = false →
        TestCommandInvoker.redoCommand dummyExec c7State = (c7State, none)) ∧
     (TestCommandInvoker.canRedo c7State = true →
        ∃ cmd, jsGet c7State.history (c7State.currentIndex + 1) = some cmd ∧
          TestCommandInvoker.redoCommand dummyExec c7State =
            ({ c7State with currentIndex := c7State.currentIndex + 1 },
              some (dummyExec cmd)))) :=
  ⟨by decide, claim_C7 dummyExec c7State (by decide)⟩

/-- Length of a nonnegative JavaScript slice. -/
theorem jsSliceTo_length_of_nonneg {α : Type u} (l : List α) (e : Int)
    (he : 0 ≤ e) : (jsSliceTo l e).length = min e.toNat l.length := by
  unfold jsSliceTo
  rw [if_neg (not_lt.2 he)]
  exact l.length_take e.toNat

/-- Every invoker operation preserves the cursor invariant. -/
theorem tcInvoker_inv_step {α : Type u} (exec : α → TestResult)
    (s : TestCommandInvoker α) (op : TestCommandInvoker.Op α)
    (h : TestCommandInvoker.Inv s) :
    TestCommandInvoker.Inv (TestCommandInvoker.step exec s op) := by
  obtain ⟨h1, h2, h3⟩ := h
  cases op with
  | exec cmd =>
    have hlen : (jsSliceTo s.history (s.currentIndex + 1)).length =
        min (s.currentIndex + 1).toNat s.history.length :=
      jsSliceTo_length_of_nonneg _ _ (by omega)
    simp only [TestCommandInvoker.step, TestCommandInvoker.executeCommand]
    refine ⟨by dsimp only; omega, ?_, ?_⟩
    · show s.currentIndex + 1 <
        ((jsSliceTo s.history (s.currentIndex + 1) ++ [cmd]).length : Int)
      rw [List.length_append, hlen]
      simp only [List.length_singleton]
      omega
    · intro hemp
      exact absurd hemp (by simp)
  | undo =>
    simp only [TestCommandInvoker.step, TestCommandInvoker.undoLastCommand]
    by_cases hc : s.currentIndex ≥ 0
    · rw [if_pos hc]
      refine ⟨by dsimp only; omega, by dsimp only; omega, ?_⟩
      intro hemp
      have := h3 hemp
      omega
    · rw [if_neg hc]
      exact ⟨h1, h2, h3⟩
  | redo =>
    simp only [TestCommandInvoker.step, TestCommandInvoker.redoCommand]
    by_cases hc : s.currentIndex < (s.history.length : Int) - 1
    · rw [if_pos hc]
      refine ⟨by dsimp only; omega, by dsimp only; omega, ?_⟩
      intro hemp
      have := h3 hemp
      have hlen : s.history.length = 0 := by rw [hemp]; rfl
      dsimp only
      omega
    · rw [if_neg hc]
      exact ⟨h1, h2, h3⟩
  | clear =>
    simp only [TestCommandInvoker.step, TestCommandInvoker.clearHistory]
    exact ⟨by norm_num, by norm_num, fun _ => rfl⟩

/-- Claim C5: every state reachable from a fresh invoker by any finite
sequence of executeCommand, undoLastCommand, redoCommand and clearHistory
calls satisfies the cursor invariant: −1 ≤ cursor < history.length, with
cursor = −1 whenever the history is empty. -/
theorem claim_C5 {α : Type u} (exec : α → TestResult)
    (ops : List (TestCommandInvoker.Op α)) :
    TestCommandInvoker.Inv (TestCommandInvoker.run exec ops) := by
  unfold TestCommandInvoker.run
  have key : ∀ (l : List (TestCommandInvoker.Op α)) (s : TestCommandInvoker α),
      TestCommandInvoker.Inv s →
      TestCommandInvoker.Inv (l.foldl (TestCommandInvoker.step exec) s) := by
    intro l
    induction l with
    | nil => intro s hs; exact hs
    | cons op rest ih =>
      intro s hs
      exact ih _ (tcInvoker_inv_step exec s op hs)
  exact key ops TestCommandInvoker.init
    ⟨by norm_num [TestCommandInvoker.init], by norm_num [TestCommandInvoker.init],
      fun _ => rfl⟩

/-- Claim C5, witness: the invariant evaluated on the state reached by a
concrete mixed operation sequence. -/
theorem claim_C5_witness :
    TestCommandInvoker.Inv (TestCommandInvoker.run dummyExec
      [.exec "A", .undo, .redo, .exec "B", .clear, .exec "C"]) :=
  claim_C5 dummyExec [.exec "A", .undo, .redo, .exec "B", .clear, .exec "C"]

/-- The macro undo loop from counter `n` undoes the first `n` sub-commands
in reverse order. -/
theorem undoLoop_eq_reverse_take (cmds : List SubCmd) :
    ∀ n, n ≤ cmds.length →
      MacroTestCommand.undoLoop cmds n = (cmds.take n).reverse := by
  intro n
  induction n with
  | zero => intro _; rfl
  | succ n ih =>
    intro h
    have hn : n < cmds.length := Nat.lt_of_succ_le h
    have hget : jsGet cmds (n : Int) = cmds.get? n := by
      unfold jsGet
      rw [if_neg (by omega)]
      simp
    have hx : cmds.get? n = some (cmds.get ⟨n, hn⟩) := List.get?_eq_get hn
    have hx2 : cmds[n]? = some (cmds.get ⟨n, hn⟩) := by
      rw [← List.get?_eq_getElem?]; exact hx
    show (jsGet cmds (n : Int)).toList ++ MacroTestCommand.undoLoop cmds n = _
    rw [hget, ih (Nat.le_of_lt hn), List.take_succ, List.reverse_append, hx, hx2]
    rfl

/-- MacroTestCommand.undo invokes every sub-command's undo, in reverse
list order. -/
theorem undoRun_eq_reverse (cmds : List SubCmd) :
    MacroTestCommand.undoRun cmds = cmds.reverse := by
  unfold MacroTestCommand.undoRun
  rw [undoLoop_eq_reverse_take cmds cmds.length (le_refl _), List.take_length]

/-- Claim C4: MacroTestCommand.execute runs sub-commands in order and, at
the first sub-result with status failed, returns a failed TestResult
naming that sub-command and its error without executing any later
sub-command; MacroTestCommand.undo invokes every sub-command's undo in
reverse list order regardless of outcomes. -/
theorem claim_C4 (mname : String) (t0 tf : Int) (pre post : List SubCmd)
    (f : SubCmd) (hpre : ∀ c ∈ pre, c.res.status ≠ .failed)
    (hf : f.res.status = .failed) :
    (MacroTestCommand.execLoop mname t0 tf (pre ++ f :: post)).1 = pre ++ [f] ∧
    (MacroTestCommand.execLoop mname t0 tf (pre ++ f :: post)).2 =
      { testName := mname, status := .failed, duration := tf - t0,
        error := some
          s!"Command {f.name} failed: {MacroTestCommand.showError f.res.error}",
        timestamp := tf } ∧
    MacroTestCommand.undoRun (pre ++ f :: post) = (pre ++ f :: post).reverse := by
  have key : ∀ (l : List SubCmd), (∀ c ∈ l, c.res.status ≠ .failed) →
      MacroTestCommand.execLoop mname t0 tf (l ++ f :: post) =
        (l ++ [f],
          { testName := mname, status := .failed, duration := tf - t0,
            error := some
              s!"Command {f.name} failed: {MacroTestCommand.showError f.res.error}",
            timestamp := tf }) := by
    intro l
    induction l with
    | nil => intro _; simp [MacroTestCommand.execLoop, hf]
    | cons c rest ih =>
      intro hp
      have hc : ¬(c.res.status = .failed) := hp c (by simp)
      have hrest := ih (fun d hd => hp d (by simp [hd]))
      simp [MacroTestCommand.execLoop, hc, hrest]
  exact ⟨by rw [key pre hpre], by rw [key pre hpre], undoRun_eq_reverse _⟩

/-- A passing sub-command for the C4 witness. -/
def c4Pre : SubCmd :=
  ⟨"ok1", { testName := "ok1", status := .passed, duration := 1,
            error := none, timestamp := 0 }⟩

/-- The failing sub-command for the C4 witness. -/
def c4Fail : SubCmd :=
  ⟨"boom", { testName := "boom", status := .failed, duration := 2,
             error := some "kaput", timestamp := 0 }⟩

/-- A never-reached sub-command for the C4 witness. -/
def c4Post : SubCmd :=
  ⟨"later", { testName := "later", status := .passed, duration := 3,
              error := none, timestamp := 0 }⟩

/-- Claim C4, witness: a concrete macro [ok1, boom, later] where boom
fails stops after boom, reports it, and undoes in reverse order. -/
theorem claim_C4_witness :
    ((∀ c ∈ [c4Pre], c.res.status ≠ .failed) ∧ c4Fail.res.status = .failed) ∧
    ((MacroTestCommand.execLoop "combo" 0 10 ([c4Pre] ++ c4Fail :: [c4Post])).1 =
        [c4Pre] ++ [c4Fail] ∧
     (MacroTestCommand.execLoop "combo" 0 10 ([c4Pre] ++ c4Fail :: [c4Post])).2 =
        { testName := "combo", status := .failed, duration := 10 - 0,
          error := some
            s!"Command {c4Fail.name} failed: {MacroTestCommand.showError c4Fail.res.error}",
          timestamp := 10 } ∧
     MacroTestCommand.undoRun ([c4Pre] ++ c4Fail :: [c4Post]) =
        ([c4Pre] ++ c4Fail :: [c4Post]).reverse) :=
  ⟨⟨by decide, by decide⟩,
    claim_C4 "combo" 0 10 [c4Pre] [c4Post] c4Fail (by decide) (by decide)⟩

/-- The forEach fan-out delivers exactly the observer list, in order, each
paired with the event. -/
theorem fanout_eq_map {β : Type u} {ε : Type v} (obs : List β) (ev : ε) :
    TestResultNotifier.fanout obs ev = obs.map (fun o => (o, ev)) := by
  induction obs with
  | nil => rfl
  | cons o rest ih => simp [TestResultNotifier.fanout, ih]

/-- One fan-out invokes a given observer's handler once per subscription
of that observer. -/
theorem fanout_count {β : Type u} {ε : Type v} [DecidableEq β] [DecidableEq ε]
    (obs : List β) (ev : ε) (o : β) :
    (TestResultNotifier.fanout obs ev).count (o, ev) = obs.count o := by
  induction obs with
  | nil => rfl
  | cons q rest ih =>
    simp only [TestResultNotifier.fanout, List.count_cons, ih]
    by_cases hq : q = o
    · simp [hq]
    · simp [hq, Prod.ext_iff]

/-- Claim C6: each of the three notify operations delivers its event to
every currently subscribed observer exactly once each, in subscription
order (the synchronous invocation trace is exactly the observer list
paired with the event); in particular, with two distinct observers
subscribed in order, one notifyTestComplete call runs both observers'
completion handlers exactly once each, in subscription order. -/
theorem claim_C6 {β : Type u} [DecidableEq β] (s : TestResultNotifier β)
    (tname : String) (r : TestResult) (suite : TestSuite) (o o1 o2 : β)
    (h : o1 ≠ o2) :
    TestResultNotifier.notifyTestStart s tname =
      s.observers.map (fun q => (q, tname)) ∧
    TestResultNotifier.notifyTestComplete s r =
      s.observers.map (fun q => (q, r)) ∧
    TestResultNotifier.notifySuiteComplete s suite =
      s.observers.map (fun q => (q, suite)) ∧
    (TestResultNotifier.notifyTestComplete s r).count (o, r) =
      s.observers.count o ∧
    TestResultNotifier.notifyTestComplete
        (TestResultNotifier.addObserver
          (TestResultNotifier.addObserver TestResultNotifier.init o1) o2) r =
      [(o1, r), (o2, r)] ∧
    (TestResultNotifier.notifyTestComplete
        (TestResultNotifier.addObserver
          (TestResultNotifier.addObserver TestResultNotifier.init o1) o2) r).count
      (o1, r) = 1 ∧
    (TestResultNotifier.notifyTestComplete
        (TestResultNotifier.addObserver
          (TestResultNotifier.addObserver TestResultNotifier.init o1) o2) r).count
      (o2, r) = 1 := by
  have hobs : (TestResultNotifier.addObserver
      (TestResultNotifier.addObserver TestResultNotifier.init o1) o2).observers =
      [o1, o2] := rfl
  refine ⟨fanout_eq_map _ _, fanout_eq_map _ _, fanout_eq_map _ _,
    fanout_count _ _ _, ?_, ?_, ?_⟩
  · show TestResultNotifier.fanout [o1, o2] r = _
    simp [TestResultNotifier.fanout]
  · rw [TestResultNotifier.notifyTestComplete, hobs, fanout_count]
    simp [List.count_cons, h]
  · rw [TestResultNotifier.notifyTestComplete, hobs, fanout_count]
    simp [List.count_cons, Ne.symm h]

/-- A concrete TestResult for the notifier and metrics witnesses. -/
def c6Result : TestResult :=
  { testName := "obs", status := .passed, duration := 100,
    error := none, timestamp := 0 }

/-- A concrete TestSuite for the notifier witness. -/
def c6Suite : TestSuite :=
  { suiteName := "suite", results := [], totalTests := 0, passedTests := 0,
    failedTests := 0, skippedTests := 0, totalDuration := 0 }

/-- A concrete notifier state (observers keyed by number). -/
def c6State : TestResultNotifier Nat := ⟨[7, 8]⟩

/-- Claim C6, witness: the fan-out facts evaluated on a concrete notifier
with observers 7 and 8, and the two-observer instance with observers
0 and 1. -/
theorem claim_C6_witness :
    (0 : Nat) ≠ 1 ∧
    (TestResultNotifier.notifyTestStart c6State "t" =
       c6State.observers.map (fun q => (q, "t")) ∧
     TestResultNotifier.notifyTestComplete c6State c6Result =
       c6State.observers.map (fun q => (q, c6Result)) ∧
     TestResultNotifier.notifySuiteComplete c6State c6Suite =
       c6State.observers.map (fun q => (q, c6Suite)) ∧
     (TestResultNotifier.notifyTestComplete c6State c6Result).count
       ((7 : Nat), c6Result) = c6State.observers.count 7 ∧
     TestResultNotifier.notifyTestComplete
         (TestResultNotifier.addObserver
           (TestResultNotifier.addObserver TestResultNotifier.init 0) 1) c6Result =
       [((0 : Nat), c6Result), ((1 : Nat), c6Result)] ∧
     (TestResultNotifier.notifyTestComplete
         (TestResultNotifier.addObserver
           (TestResultNotifier.addObserver TestResultNotifier.init 0) 1)
         c6Result).count ((0 : Nat), c6Result) = 1 ∧
     (TestResultNotifier.notifyTestComplete
         (TestResultNotifier.addObserver
           (TestResultNotifier.addObserver TestResultNotifier.init 0) 1)
         c6Result).count ((1 : Nat), c6Result) = 1) :=
  ⟨by decide, claim_C6 c6State "t" c6Result c6Suite 7 0 1 (by decide)⟩

/-- Characterization of the composite's accumulation loop from an
arbitrary accumulator: validity is conjoined across all sub-results and
only invalid sub-results contribute their errors, in order. -/
theorem compositeLoop_spec {γ : Type u} (strategies : List (γ → ValidationResult))
    (d : γ) (b : Bool) (es : List String) :
    strategies.foldl
      (fun (acc : Bool × List String) s =>
        let result := s d
        if result.isValid then acc else (false, acc.2 ++ result.errors))
      (b, es) =
    (b && strategies.all (fun s => (s d).isValid),
     es ++ (strategies.map
       (fun s => if (s d).isValid then [] else (s d).errors)).flatten) := by
  induction strategies generalizing b es with
  | nil => simp
  | cons s rest ih =>
    simp only [List.foldl_cons, List.all_cons, List.map_cons, List.flatten_cons]
    cases hv : (s d).isValid
    · simp only [hv, Bool.false_eq_true, if_false, ih, Bool.false_and,
        Bool.and_false, List.append_assoc]
    · simp only [hv, if_true, ih, Bool.true_and, List.nil_append]

/-- Claim C3, amended: CompositeValidationStrategy.validate runs every
sub-strategy (the aggregation is over the full list, never
short-circuited), its isValid is the conjunction of all sub-results'
validity, and its errors are the concatenation, in sub-strategy order, of
the error lists of the invalid sub-results — which coincides with the
concatenation of all sub-results' error lists whenever every valid
sub-result carries no errors (true of every strategy in the repository);
in particular [A: valid, B: invalid with "x"] yields isValid = false and
errors = ["x"]. -/
theorem claim_C3 {γ : Type u} (strategies : List (γ → ValidationResult))
    (d : γ) (a bad : γ → ValidationResult)
    (ha : (a d).isValid = true) (hb : bad d = ⟨false, ["x"], some "b"⟩) :
    (CompositeValidationStrategy.validate strategies d).isValid =
      strategies.all (fun s => (s d).isValid) ∧
    (CompositeValidationStrategy.validate strategies d).errors =
      (strategies.map
        (fun s => if (s d).isValid then [] else (s d).errors)).flatten ∧
    ((∀ s ∈ strategies, (s d).isValid = true → (s d).errors = []) →
      (CompositeValidationStrategy.validate strategies d).errors =
        (strategies.map (fun s => (s d).errors)).flatten) ∧
    (CompositeValidationStrategy.validate [a, bad] d).isValid = false ∧
    (CompositeValidationStrategy.validate [a, bad] d).errors = ["x"] := by
  have hv : ∀ (l : List (γ → ValidationResult)),
      CompositeValidationStrategy.validate l d =
        { isValid := l.all (fun s => (s d).isValid),
          errors := (l.map
            (fun s => if (s d).isValid then [] else (s d).errors)).flatten,
          field := some "composite" } := by
    intro l
    unfold CompositeValidationStrategy.validate
    rw [compositeLoop_spec]
    simp
  refine ⟨by rw [hv], by rw [hv], ?_, ?_, ?_⟩
  · intro hval
    rw [hv]
    simp only
    congr 1
    apply List.map_congr_left
    intro s hs
    by_cases h : (s d).isValid = true
    · rw [if_pos h, hval s hs h]
    · rw [if_neg h]
  · rw [hv]
    simp [ha, hb]
  · rw [hv]
    simp [ha, hb]

/-- A sub-strategy whose result is valid yet carries an error string —
legal under the ValidationStrategy interface. -/
def c3Strategies : List (Unit → ValidationResult) :=
  [fun _ => ⟨true, ["x"], none⟩]

/-- Claim C3, counterexample: for a sub-strategy returning a valid result
that nevertheless carries error "x", the composite's error list is empty,
not the concatenation of all sub-results' error lists as the claim
states (the loop only accumulates errors of invalid sub-results). -/
theorem claim_C3_counterexample :
    (CompositeValidationStrategy.validate c3Strategies ()).errors ≠
      (c3Strategies.map (fun s => (s ()).errors)).flatten := by
  decide

/-- A valid sub-strategy with no errors, as every strategy of the
repository produces. -/
def c3A : Unit → ValidationResult := fun _ => ⟨true, [], some "a"⟩

/-- An invalid sub-strategy reporting the single error "x". -/
def c3B : Unit → ValidationResult := fun _ => ⟨false, ["x"], some "b"⟩

/-- Claim C3, witness: the amended statement evaluated on the concrete
composite [A: valid, B: invalid with "x"]. -/
theorem claim_C3_witness :
    ((c3A ()).isValid = true ∧ c3B () = ⟨false, ["x"], some "b"⟩) ∧
    ((CompositeValidationStrategy.validate [c3A, c3B] ()).isValid =
       ([c3A, c3B].all fun s => (s ()).isValid) ∧
     (CompositeValidationStrategy.validate [c3A, c3B] ()).errors =
       ([c3A, c3B].map
         (fun s => if (s ()).isValid then [] else (s ()).errors)).flatten ∧
     ((∀ s ∈ [c3A, c3B], (s ()).isValid = true → (s ()).errors = []) →
       (CompositeValidationStrategy.validate [c3A, c3B] ()).errors =
         ([c3A, c3B].map (fun s => (s ()).errors)).flatten) ∧
     (CompositeValidationStrategy.validate [c3A, c3B] ()).isValid = false ∧
     (CompositeValidationStrategy.validate [c3A, c3B] ()).errors = ["x"]) :=
  ⟨⟨rfl, rfl⟩, claim_C3 [c3A, c3B] () c3A c3B rfl rfl⟩

/-- One step of the retry loop on a retryable failure with attempts left:
record the backoff wait `baseDelay × 2 ^ (attempt − 1)` and continue at
the next attempt. -/
theorem retryFrom_retry_step (outcome : Nat → AttemptOutcome) (n d a fuel : Nat)
    (hf : outcome a ≠ .success) (hr : retryable (outcome a) = true)
    (han : a < n) :
    retryFrom outcome n d a (fuel + 1) =
      ⟨(retryFrom outcome n d (a + 1) fuel).succeeded,
        d * 2 ^ (a - 1) :: (retryFrom outcome n d (a + 1) fuel).waits,
        (retryFrom outcome n d (a + 1) fuel).networkCalls + 1⟩ := by
  cases houta : outcome a with
  | success => exact absurd houta hf
  | networkFailure =>
    rw [houta] at hr
    rw [retryFrom, houta]
    dsimp only
    rw [if_pos ⟨hr, han⟩]
  | httpStatus code =>
    rw [houta] at hr
    rw [retryFrom, houta]
    dsimp only
    rw [if_pos ⟨hr, han⟩]
  | otherError =>
    rw [houta] at hr
    rw [retryFrom, houta]
    dsimp only
    rw [if_pos ⟨hr, han⟩]

/-- The retry loop, entered at attempt `a` with enough fuel, under
retryable failures strictly before attempt `m ≤ maxAttempts` and success
at attempt `m`: it succeeds, waits `baseDelay × 2 ^ (k−1)` after each
failed attempt `k`, and issues exactly the remaining attempts. -/
theorem retryFrom_succeeds (outcome : Nat → AttemptOutcome) (n d m : Nat)
    (hmn : m ≤ n) (hsucc : outcome m = .success)
    (hfail : ∀ k, 1 ≤ k → k < m →
      outcome k ≠ .success ∧ retryable (outcome k) = true) :
    ∀ fuel a, 1 ≤ a → a ≤ m → m + 1 - a ≤ fuel →
      retryFrom outcome n d a fuel =
        ⟨true, (List.range' (a - 1) (m - a)).map (fun i => d * 2 ^ i),
          m + 1 - a⟩ := by
  intro fuel
  induction fuel with
  | zero => intro a _ ha2 hf; omega
  | succ fuel ih =>
    intro a ha1 ha2 hf
    by_cases ham : a = m
    · subst ham
      rw [retryFrom, hsucc]
      simp only [RetryRun.mk.injEq, Nat.sub_self]
      refine ⟨trivial, by simp, by omega⟩
    · have halt : a < m := lt_of_le_of_ne ha2 ham
      have hk := hfail a ha1 halt
      have hrange : m - a = (m - (a + 1)) + 1 := by omega
      have ha0 : a - 1 + 1 = a := by omega
      have hrw : (List.range' (a - 1) (m - a)).map (fun i => d * 2 ^ i) =
          d * 2 ^ (a - 1) ::
            (List.range' a (m - (a + 1))).map (fun i => d * 2 ^ i) := by
        rw [hrange, List.range'_succ, List.map_cons, ha0]
      have hrec := ih (a + 1) (by omega) (by omega) (by omega)
      rw [retryFrom_retry_step outcome n d a fuel hk.1 hk.2 (by omega), hrec,
        hrw]
      simp only [RetryRun.mk.injEq, Nat.add_sub_cancel]
      exact ⟨by simp, by simp, by omega⟩

/-- Claim C2: under the retry policy, each retryable failure on attempt
k < maxAttempts is followed by a wait of baseDelay × 2^(k−1) before
attempt k+1 (so when attempts 1..m−1 fail retryably and attempt m ≤ n
succeeds, the request succeeds with waits d·2^0, …, d·2^(m−2) in order),
while a NonRetryable failure such as HTTP 404 on the first attempt fails
immediately with zero waits and a single network call. -/
theorem claim_C2 (outcome : Nat → AttemptOutcome) (n d m : Nat)
    (hm : 1 ≤ m) (hmn : m ≤ n) (hsucc : outcome m = .success)
    (hfail : ∀ k, 1 ≤ k → k < m →
      outcome k ≠ .success ∧ retryable (outcome k) = true) :
    (runRetry outcome n d).succeeded = true ∧
    (runRetry outcome n d).waits =
      (List.range (m - 1)).map (fun i => d * 2 ^ i) ∧
    (runRetry outcome n d).networkCalls = m ∧
    retryable (.httpStatus 503) = true ∧
    retryable (.httpStatus 404) = false ∧
    (∀ out2 : Nat → AttemptOutcome, out2 1 = .httpStatus 404 →
      runRetry out2 n d = ⟨false, [], 1⟩) := by
  have hrun : runRetry outcome n d =
      ⟨true, (List.range' 0 (m - 1)).map (fun i => d * 2 ^ i), m⟩ := by
    unfold runRetry
    rw [retryFrom_succeeds outcome n d m hmn hsucc hfail (max n 1) 1
      (le_refl 1) hm (by omega)]
    simp
  refine ⟨by rw [hrun], ?_, by rw [hrun], by decide, by decide, ?_⟩
  · rw [hrun, List.range_eq_range']
  · intro out2 h404
    unfold runRetry
    have hsplit : max n 1 = (max n 1 - 1) + 1 := by omega
    rw [hsplit, retryFrom, h404]
    dsimp only
    rw [if_neg]
    intro hcon
    exact absurd hcon.1 (by decide)

/-- A concrete attempt schedule: HTTP 503 on attempts 1 and 2, success on
attempt 3. -/
def c2Outcome : Nat → AttemptOutcome :=
  fun k => if k ≤ 2 then .httpStatus 503 else .success

/-- Claim C2, witness: with max attempts 3 and base delay 1000 ms against
the 503/503/success schedule, the request succeeds after waits of exactly
1000 ms and then 2000 ms, and a 404 on the first attempt fails with zero
waits after one call. -/
theorem claim_C2_witness :
    (1 ≤ 3 ∧ 3 ≤ 3 ∧ c2Outcome 3 = .success ∧
      (∀ k, 1 ≤ k → k < 3 →
        c2Outcome k ≠ .success ∧ retryable (c2Outcome k) = true)) ∧
    ((runRetry c2Outcome 3 1000).succeeded = true ∧
     (runRetry c2Outcome 3 1000).waits =
       (List.range (3 - 1)).map (fun i => 1000 * 2 ^ i) ∧
     (runRetry c2Outcome 3 1000).networkCalls = 3 ∧
     retryable (.httpStatus 503) = true ∧
     retryable (.httpStatus 404) = false ∧
     (∀ out2 : Nat → AttemptOutcome, out2 1 = .httpStatus 404 →
       runRetry out2 3 1000 = ⟨false, [], 1⟩)) ∧
    (runRetry c2Outcome 3 1000).waits = [1000, 2000] :=
  ⟨⟨by decide, by decide, by decide,
      fun k h1 h2 => by interval_cases k <;> exact ⟨by decide, by decide⟩⟩,
    claim_C2 c2Outcome 3 1000 3 (by decide) (by decide) (by decide)
      (fun k h1 h2 => by interval_cases k <;> exact ⟨by decide, by decide⟩),
    by decide⟩

/-- Claim C8: for every count outside [1, 5000], getMultipleUsers fails
synchronously with the ConfigError-class failure before any network call
(the network-call counter stays at zero), hence is never retried. -/
theorem claim_C8 (outcome : Nat → AttemptOutcome) (n d : Nat) (count : Int)
    (h : count < 1 ∨ 5000 < count) :
    getMultipleUsers outcome n d count =
      ⟨.error (.configError "Count must be between 1 and 5000"), 0⟩ := by
  unfold getMultipleUsers
  rw [if_pos (by omega)]

/-- Claim C8, witness: the out-of-range counts exercised by the
repository's tests (−1, 0, 5001, 999999) all fail with the ConfigError
and zero network calls, under any attempt schedule. -/
theorem claim_C8_witness :
    (((-1 : Int) < 1 ∨ (5000 : Int) < -1) ∧
     ((0 : Int) < 1 ∨ (5000 : Int) < 0) ∧
     ((5001 : Int) < 1 ∨ (5000 : Int) < 5001) ∧
     ((999999 : Int) < 1 ∨ (5000 : Int) < 999999)) ∧
    getMultipleUsers c2Outcome 3 1000 (-1) =
      ⟨.error (.configError "Count must be between 1 and 5000"), 0⟩ ∧
    getMultipleUsers c2Outcome 3 1000 0 =
      ⟨.error (.configError "Count must be between 1 and 5000"), 0⟩ ∧
    getMultipleUsers c2Outcome 3 1000 5001 =
      ⟨.error (.configError "Count must be between 1 and 5000"), 0⟩ ∧
    getMultipleUsers c2Outcome 3 1000 999999 =
      ⟨.error (.configError "Count must be between 1 and 5000"), 0⟩ :=
  ⟨⟨Or.inl (by decide), Or.inl (by decide), Or.inr (by decide),
      Or.inr (by decide)⟩,
    claim_C8 c2Outcome 3 1000 (-1) (Or.inl (by decide)),
    claim_C8 c2Outcome 3 1000 0 (Or.inl (by decide)),
    claim_C8 c2Outcome 3 1000 5001 (Or.inr (by decide)),
    claim_C8 c2Outcome 3 1000 999999 (Or.inr (by decide))⟩

/-- Explicit form of one onTestComplete step. -/
theorem onTestComplete_eq (m : Metrics) (r : TestResult) :
    MetricsTestObserver.onTestComplete m r =
      { totalTests := m.totalTests + 1,
        passedTests := m.passedTests + (if r.status = .passed then 1 else 0),
        failedTests := m.failedTests + (if r.status = .failed then 1 else 0),
        skippedTests := m.skippedTests + (if r.status = .skipped then 1 else 0),
        totalDuration := m.totalDuration + r.duration,
        averageDuration := ((m.totalDuration + r.duration : Int) : Rat) /
          ((m.totalTests + 1 : Nat) : Rat),
        slowestTest :=
          if (r.duration : WithTop Int) > m.slowestTest.duration then
            ⟨r.testName, (r.duration : WithTop Int)⟩
          else m.slowestTest,
        fastestTest :=
          if (r.duration : WithTop Int) < m.fastestTest.duration then
            ⟨r.testName, (r.duration : WithTop Int)⟩
          else m.fastestTest } := by
  cases hst : r.status <;>
    simp [MetricsTestObserver.onTestComplete, hst] <;>
    split_ifs <;>
    simp

/-- Running invariants of the metrics observer over any completion
sequence: counts, duration totals, the recomputed average, and the
min/max tracking records. -/
theorem metrics_observeAll_spec (rs : List TestResult) :
    (MetricsTestObserver.observeAll rs).totalTests = rs.length ∧
    (MetricsTestObserver.observeAll rs).passedTests +
        (MetricsTestObserver.observeAll rs).failedTests +
        (MetricsTestObserver.observeAll rs).skippedTests =
      (MetricsTestObserver.observeAll rs).totalTests ∧
    (MetricsTestObserver.observeAll rs).totalDuration =
      (rs.map TestResult.duration).sum ∧
    (MetricsTestObserver.observeAll rs).averageDuration =
      ((MetricsTestObserver.observeAll rs).totalDuration : Rat) /
        ((MetricsTestObserver.observeAll rs).totalTests : Rat) ∧
    (rs ≠ [] → ∃ r ∈ rs,
      (MetricsTestObserver.observeAll rs).fastestTest =
        ⟨r.testName, (r.duration : WithTop Int)⟩ ∧
      ∀ q ∈ rs, r.duration ≤ q.duration) ∧
    (MetricsTestObserver.observeAll rs).slowestTest.duration =
      (((rs.map TestResult.duration).foldl max 0 : Int) : WithTop Int) ∧
    (∀ q ∈ rs, q.duration ≤ (rs.map TestResult.duration).foldl max 0) ∧
    (0 < (rs.map TestResult.duration).foldl max 0 →
      ∃ r ∈ rs, (MetricsTestObserver.observeAll rs).slowestTest =
          ⟨r.testName, (r.duration : WithTop Int)⟩ ∧
        ∀ q ∈ rs, q.duration ≤ r.duration) := by
  induction rs using List.reverseRecOn with
  | nil =>
    refine ⟨rfl, rfl, rfl,
      by norm_num [MetricsTestObserver.observeAll, MetricsTestObserver.initMetrics],
      fun h => absurd rfl h, rfl, ?_, ?_⟩
    · intro q hq
      exact absurd hq (List.not_mem_nil q)
    · intro h
      exact absurd h (lt_irrefl 0)
  | append_singleton rs r ih =>
    obtain ⟨ih1, ih2, ih3, ih4, ih5, ih6, ih7, ih8⟩ := ih
    have hstep : MetricsTestObserver.observeAll (rs ++ [r]) =
        MetricsTestObserver.onTestComplete (MetricsTestObserver.observeAll rs) r := by
      unfold MetricsTestObserver.observeAll
      rw [List.foldl_append]
      rfl
    have hmax : ((rs ++ [r]).map TestResult.duration).foldl max 0 =
        max ((rs.map TestResult.duration).foldl max 0) r.duration := by
      rw [List.map_append, List.foldl_append]
      rfl
    rw [hstep, onTestComplete_eq]
    dsimp only
    refine ⟨?_, ?_, ?_, rfl, ?_, ?_, ?_, ?_⟩
    · simp [ih1]
    · cases hst : r.status <;> simp [hst] <;> omega
    · rw [List.map_append, List.sum_append, ih3]
      simp
    · intro _
      by_cases hrs : rs = []
      · subst hrs
        rw [if_pos (by exact WithTop.coe_lt_top r.duration)]
        refine ⟨r, by simp, rfl, ?_⟩
        intro p hp
        have : p = r := by simpa using hp
        rw [this]
      · obtain ⟨rmin, hmem, heq, hmin⟩ := ih5 hrs
        by_cases hlt : (r.duration : WithTop Int) <
            (MetricsTestObserver.observeAll rs).fastestTest.duration
        · rw [if_pos hlt]
          rw [heq] at hlt
          have hlt2 : r.duration < rmin.duration := WithTop.coe_lt_coe.mp hlt
          refine ⟨r, by simp, rfl, ?_⟩
          intro p hp
          rcases List.mem_append.mp hp with hp | hp
          · exact le_of_lt (lt_of_lt_of_le hlt2 (hmin p hp))
          · have : p = r := by simpa using hp
            rw [this]
        · rw [if_neg hlt]
          refine ⟨rmin, List.mem_append_left _ hmem, heq, ?_⟩
          intro p hp
          rcases List.mem_append.mp hp with hp | hp
          · exact hmin p hp
          · have hpr : p = r := by simpa using hp
            rw [heq] at hlt
            have := WithTop.coe_le_coe.mp (not_lt.mp hlt)
            rw [hpr]
            exact this
    · rw [hmax]
      by_cases hgt : (MetricsTestObserver.observeAll rs).slowestTest.duration <
          (r.duration : WithTop Int)
      · rw [if_pos hgt]
        rw [ih6] at hgt
        have := WithTop.coe_lt_coe.mp hgt
        dsimp only
        rw [max_eq_right (le_of_lt this)]
      · rw [if_neg hgt, ih6]
        rw [ih6] at hgt
        have hler : r.duration ≤ (rs.map TestResult.duration).foldl max 0 :=
          WithTop.coe_le_coe.mp (not_lt.mp hgt)
        rw [max_eq_left hler]
    · rw [hmax]
      intro q hq
      rcases List.mem_append.mp hq with hq | hq
      · exact le_trans (ih7 q hq) (le_max_left _ _)
      · have : q = r := by simpa using hq
        rw [this]
        exact le_max_right _ _
    · rw [hmax]
      intro hpos
      by_cases hgt : (MetricsTestObserver.observeAll rs).slowestTest.duration <
          (r.duration : WithTop Int)
      · rw [if_pos hgt]
        rw [ih6] at hgt
        have hlt2 := WithTop.coe_lt_coe.mp hgt
        refine ⟨r, by simp, rfl, ?_⟩
        intro q hq
        rcases List.mem_append.mp hq with hq | hq
        · exact le_of_lt (lt_of_le_of_lt (ih7 q hq) hlt2)
        · have : q = r := by simpa using hq
          rw [this]
      · rw [if_neg hgt]
        rw [ih6] at hgt
        have hler : r.duration ≤ (rs.map TestResult.duration).foldl max 0 :=
          WithTop.coe_le_coe.mp (not_lt.mp hgt)
        have hpos2 : 0 < (rs.map TestResult.duration).foldl max 0 := by
          rcases max_cases ((rs.map TestResult.duration).foldl max 0) r.duration
            with ⟨hc, _⟩ | ⟨hc, _⟩
          · rwa [hc] at hpos
          · rw [hc] at hpos
            exact lt_of_lt_of_le hpos hler
        obtain ⟨rmax, hmem, heq, hmax2⟩ := ih8 hpos2
        have hdmax : (rmax.duration : WithTop Int) =
            (((rs.map TestResult.duration).foldl max 0 : Int) : WithTop Int) := by
          rw [← ih6, heq]
        have hdmax2 : rmax.duration = (rs.map TestResult.duration).foldl max 0 :=
          WithTop.coe_inj.mp hdmax
        refine ⟨rmax, List.mem_append_left _ hmem, heq, ?_⟩
        intro q hq
        rcases List.mem_append.mp hq with hq | hq
        · exact hmax2 q hq
        · have : q = r := by simpa using hq
          rw [this, hdmax2]
          exact hler

/-- Claim C9, amended: after every nonempty finite sequence of
onTestComplete calls from the initial state, totalTests equals the number
of received results and equals passedTests + failedTests + skippedTests,
totalDuration is the sum of all received durations, averageDuration is
totalDuration / totalTests, fastestTest holds the name and duration of a
received result with minimal duration, and the slowest-test tracking
saturates at the initial 0-duration sentinel: slowestTest.duration equals
the maximum of 0 and all received durations, and whenever that maximum is
positive, slowestTest holds the name and duration of a received result
with maximal duration (with all durations zero it keeps the initial empty
name). -/
theorem claim_C9 (rs : List TestResult) (hne : rs ≠ []) :
    (MetricsTestObserver.observeAll rs).totalTests = rs.length ∧
    (MetricsTestObserver.observeAll rs).passedTests +
        (MetricsTestObserver.observeAll rs).failedTests +
        (MetricsTestObserver.observeAll rs).skippedTests =
      (MetricsTestObserver.observeAll rs).totalTests ∧
    (MetricsTestObserver.observeAll rs).totalDuration =
      (rs.map TestResult.duration).sum ∧
    (MetricsTestObserver.observeAll rs).averageDuration =
      ((MetricsTestObserver.observeAll rs).totalDuration : Rat) /
        ((MetricsTestObserver.observeAll rs).totalTests : Rat) ∧
    (∃ r ∈ rs, (MetricsTestObserver.observeAll rs).fastestTest =
        ⟨r.testName, (r.duration : WithTop Int)⟩ ∧
      ∀ q ∈ rs, r.duration ≤ q.duration) ∧
    (MetricsTestObserver.observeAll rs).slowestTest.duration =
      (((rs.map TestResult.duration).foldl max 0 : Int) : WithTop Int) ∧
    (0 < (rs.map TestResult.duration).foldl max 0 →
      ∃ r ∈ rs, (MetricsTestObserver.observeAll rs).slowestTest =
          ⟨r.testName, (r.duration : WithTop Int)⟩ ∧
        ∀ q ∈ rs, q.duration ≤ r.duration) := by
  obtain ⟨h1, h2, h3, h4, h5, h6, _h7, h8⟩ := metrics_observeAll_spec rs
  exact ⟨h1, h2, h3, h4, h5 hne, h6, h8⟩

/-- Claim C9, witness: the metrics invariants after observing the single
result named obs with duration 100. -/
theorem claim_C9_witness :
    ([c6Result] ≠ ([] : List TestResult)) ∧
    ((MetricsTestObserver.observeAll [c6Result]).totalTests =
       [c6Result].length ∧
     (MetricsTestObserver.observeAll [c6Result]).passedTests +
         (MetricsTestObserver.observeAll [c6Result]).failedTests +
         (MetricsTestObserver.observeAll [c6Result]).skippedTests =
       (MetricsTestObserver.observeAll [c6Result]).totalTests ∧
     (MetricsTestObserver.observeAll [c6Result]).totalDuration =
       ([c6Result].map TestResult.duration).sum ∧
     (MetricsTestObserver.observeAll [c6Result]).averageDuration =
       ((MetricsTestObserver.observeAll [c6Result]).totalDuration : Rat) /
         ((MetricsTestObserver.observeAll [c6Result]).totalTests : Rat) ∧
     (∃ r ∈ [c6Result], (MetricsTestObserver.observeAll [c6Result]).fastestTest =
         ⟨r.testName, (r.duration : WithTop Int)⟩ ∧
       ∀ q ∈ [c6Result], r.duration ≤ q.duration) ∧
     (MetricsTestObserver.observeAll [c6Result]).slowestTest.duration =
       ((([c6Result].map TestResult.duration).foldl max 0 : Int) : WithTop Int) ∧
     (0 < ([c6Result].map TestResult.duration).foldl max 0 →
       ∃ r ∈ [c6Result], (MetricsTestObserver.observeAll [c6Result]).slowestTest =
           ⟨r.testName, (r.duration : WithTop Int)⟩ ∧
         ∀ q ∈ [c6Result], q.duration ≤ r.duration)) :=
  ⟨by simp, claim_C9 [c6Result] (by simp)⟩

/-- A received result whose duration is zero. -/
def c9Zero : TestResult :=
  { testName := "t", status := .passed, duration := 0,
    error := none, timestamp := 0 }

/-- Claim C9, counterexample: after one onTestComplete with a result of
duration 0, slowestTest does not hold the name and duration of any
received result — it keeps the initial sentinel name "", because the
strict update `duration > slowest.duration` never fires at 0 > 0. -/
theorem claim_C9_counterexample :
    ¬ ∃ r ∈ [c9Zero], (MetricsTestObserver.observeAll [c9Zero]).slowestTest =
        ⟨r.testName, (r.duration : WithTop Int)⟩ := by
  intro hex
  obtain ⟨r, hr, heq⟩ := hex
  have hrz : r = c9Zero := by simpa using hr
  subst hrz
  have hslow : (MetricsTestObserver.observeAll [c9Zero]).slowestTest =
      ⟨"", ((0 : Int) : WithTop Int)⟩ := by
    show (MetricsTestObserver.onTestComplete
        MetricsTestObserver.initMetrics c9Zero).slowestTest = _
    rw [onTestComplete_eq]
    dsimp only
    rw [if_neg (by exact lt_irrefl (((0 : Int) : WithTop Int)))]
    rfl
  rw [hslow] at heq
  exact absurd (congrArg NamedDuration.name heq) (by decide)

/-- Claim C10, witness: the empty macro evaluated at a concrete name and
clock readings. -/
theorem claim_C10_witness :
    (MacroTestCommand.execLoop "empty" 0 5 []).2.status = .passed ∧
    (MacroTestCommand.execLoop "empty" 0 5 []).2.error = none ∧
    MacroTestCommand.undoRun [] = [] :=
  claim_C10 "empty" 0 5
